import Mathlib

/-!
Verification of the self-refreshing token cell of `refresh.go`
(package `main` of github.com/appliedgo/refresh).

The repository contains two implementations of the cell:

* `Token`: a single background goroutine owns the slot; readers receive the
  current slot through an unbuffered channel from inside the goroutine's
  `select` loop (`Token.refreshToken`, `Token.Get`, `NewToken`).
* `MToken`: the slot is a pair of fields guarded by a `sync.RWMutex`; the
  background goroutine writes under `Lock`, readers read under `RLock`
  (`MToken.refreshToken`, `MToken.Get`, `NewMToken`).

The embedding models each cell as a labelled transition system over integer
timestamps (milliseconds).  An execution is a list of loop events — a reader
handoff, the expiry timer case, the cancellation case — processed one at a
time by the single loop goroutine, exactly as the `select` statement (resp.
the write lock) serialises them in the source.  Trace admissibility (`wf`)
captures what the Go runtime guarantees and nothing more: the loop is
unavailable while an authorizer call is in flight, the timer case can only be
taken once the armed deadline has passed, and — crucially — `select` may
service a pending reader even when the timer case is also ready.

The authorizer function `func() (string, time.Duration, error)` is modelled
extensionally: call number `k` (0-based across the execution) returns
`result k` and keeps the loop busy for `dur k` milliseconds.
-/

namespace Refresh

/-- `lifeSpanSafetyMargin` from the source (`10 * time.Millisecond`), in
integer milliseconds. -/
def lifeSpanSafetyMargin : Int := 10

/-- The outcome of one call to an authorization function
`func() (string, time.Duration, error)`: a token, a validity duration
(`time.Duration`, in ms) and an optional error (`error`, `none` = `nil`). -/
structure AuthResult where
  token : String
  validFor : Int
  err : Option String
deriving Repr, DecidableEq

/-- An authorizer capability, viewed across a whole execution: the `k`-th call
(0-based) returns `result k` and takes `dur k` milliseconds to complete. -/
structure Authorizer where
  result : Nat → AuthResult
  dur : Nat → Int

/-- State of the `Token` cell's background loop (`Token.refreshToken`): the
local variables `token`, `err`, the number of completed `a.authorize()` calls,
the completion instant of the latest call, the instant at which the armed
`expired` timer becomes ready, the instant up to which the loop goroutine is
occupied, and whether the loop has returned via the `ctx.Done()` case. -/
structure TokenState where
  token : String
  err : Option String
  calls : Nat
  lastFetchEnd : Int
  deadline : Int
  busy : Int
  stopped : Bool
deriving Repr, DecidableEq

/-- What a completed `Token.Get()` observes: the handoff instant, the slot
contents, the index of the authorizer call that produced them, that call's
completion instant, and the armed deadline (= computed expiry
`fetch completion + validFor - lifeSpanSafetyMargin`) at handoff time. -/
structure ReadOut where
  t : Int
  token : String
  err : Option String
  callIdx : Nat
  fetchEnd : Int
  expiry : Int
deriving Repr, DecidableEq

/-- The three `select` cases of `Token.refreshToken`: a reader handoff
(`a.accessToken <- tokenResponse{...}`; `treq` is the instant the reader
called `Get()` and `t` the instant the handoff happens), the `<-expired`
timer case taken at `t`, and the `<-ctx.Done()` case taken at `t`. -/
inductive Event where
  | read (treq t : Int)
  | timerFire (t : Int)
  | cancel (t : Int)
deriving Repr, DecidableEq

/-- Observable actions of an execution: a handoff to a reader, and the start
and completion of the `k`-th authorizer call. -/
inductive Action where
  | serve (t : Int)
  | authBegin (t : Int) (k : Nat)
  | authEnd (t : Int) (k : Nat)
deriving Repr, DecidableEq

/-- One iteration of the `select` loop in `Token.refreshToken`.  A handoff
sends the current slot; the timer case calls `a.authorize()` (overwriting
`token`, `expiration`, `err`) and re-arms `expired` with duration
`expiration - lifeSpanSafetyMargin` from the call's completion; `ctx.Done()`
makes the loop return.  After the loop has returned, nothing processes events
any more: a pending handoff never happens and no authorizer is called. -/
def step (A : Authorizer) (s : TokenState) : Event → TokenState × Option ReadOut
  | .read _ t =>
      if s.stopped then (s, none)
      else ({ s with busy := t },
            some ⟨t, s.token, s.err, s.calls - 1, s.lastFetchEnd, s.deadline⟩)
  | .timerFire t =>
      if s.stopped then (s, none)
      else
        ({ token := (A.result s.calls).token, err := (A.result s.calls).err,
           calls := s.calls + 1,
           lastFetchEnd := t + A.dur s.calls,
           deadline := t + A.dur s.calls + (A.result s.calls).validFor -
             lifeSpanSafetyMargin,
           busy := t + A.dur s.calls, stopped := false }, none)
  | .cancel _ => ({ s with stopped := true }, none)

/-- The actions an event makes observable. -/
def actsOf (A : Authorizer) (s : TokenState) : Event → List Action
  | .read _ t => if s.stopped then [] else [.serve t]
  | .timerFire t =>
      if s.stopped then []
      else [.authBegin t s.calls, .authEnd (t + A.dur s.calls) s.calls]
  | .cancel _ => []

/-- Final state, completed reads, and observable actions of a run. -/
structure RunRes where
  state : TokenState
  outs : List ReadOut
  acts : List Action
deriving Repr, DecidableEq

/-- Run the loop from state `s` over a list of events. -/
def runFrom (A : Authorizer) (s : TokenState) : List Event → RunRes
  | [] => ⟨s, [], []⟩
  | e :: es =>
      ⟨(runFrom A (step A s e).1 es).state,
       (step A s e).2.elim (runFrom A (step A s e).1 es).outs
         (fun o => o :: (runFrom A (step A s e).1 es).outs),
       actsOf A s e ++ (runFrom A (step A s e).1 es).acts⟩

/-- Admissibility of one event from state `s`, from the Go semantics of the
loop: a case can only be taken once the loop is free again (`busy`), a
handoff cannot happen before the reader asked, the timer case only once the
armed deadline has passed, and call durations are nonnegative.  After the
loop has returned (`stopped`), events are unconstrained no-ops (the reader
blocks, the fired timer is ignored).  Note what is deliberately NOT required:
a pending reader may be serviced even when the timer case is ready —
`select` chooses among ready cases at random. -/
def evOk (A : Authorizer) (s : TokenState) : Event → Bool
  | .read treq t => s.stopped || (decide (treq ≤ t) && decide (s.busy ≤ t))
  | .timerFire t =>
      s.stopped || (decide (s.busy ≤ t) && decide (s.deadline ≤ t) &&
        decide (0 ≤ A.dur s.calls))
  | .cancel t => s.stopped || decide (s.busy ≤ t)

/-- Trace admissibility: every event is admissible in the state it meets. -/
def wf (A : Authorizer) (s : TokenState) : List Event → Bool
  | [] => true
  | e :: es => evOk A s e && wf A (step A s e).1 es

/-- One event of a prompt schedule: no handoff happens after the armed
deadline has passed. -/
def promptOk (s : TokenState) : Event → Bool
  | .read _ t => s.stopped || decide (t ≤ s.deadline)
  | _ => true

/-- A schedule is prompt when the loop always takes a ready timer case before
servicing a reader that arrives at or after the deadline.  The Go `select`
does NOT guarantee this. -/
def prompt (A : Authorizer) (s : TokenState) : List Event → Bool
  | [] => true
  | e :: es => promptOk s e && prompt A (step A s e).1 es

/-- The state right after the initial `a.authorize()` call at the top of
`Token.refreshToken`, for a loop whose goroutine starts at instant `t0`:
call 0 completes at `t0 + dur 0` and `expired` is armed with duration
`expiration - lifeSpanSafetyMargin` (no clamping in the source). -/
def initFetch (A : Authorizer) (t0 : Int) : TokenState :=
  { token := (A.result 0).token, err := (A.result 0).err, calls := 1,
    lastFetchEnd := t0 + A.dur 0,
    deadline := t0 + A.dur 0 + (A.result 0).validFor - lifeSpanSafetyMargin,
    busy := t0 + A.dur 0, stopped := false }

/-- The cell state at construction time `t0`, before the spawned goroutine
has run: no authorizer call has been made yet. -/
def preState (t0 : Int) : TokenState :=
  { token := "", err := none, calls := 0, lastFetchEnd := t0, deadline := t0,
    busy := t0, stopped := false }

/-- The `Token` struct as handed to the caller. -/
structure TokenCell where
  authorize : Authorizer
  state0 : TokenState

/-- `NewToken`: stores the supplied authorization function in the `authorize`
field and spawns the refresh goroutine; the constructor itself makes no
authorizer call and does not wait for the initial fetch. -/
def NewToken (t0 : Int) (auth : Authorizer) : TokenCell :=
  { authorize := auth, state0 := preState t0 }

/-- A complete execution of `Token.refreshToken` whose goroutine starts at
`t0`: the unconditional initial fetch, then the `select` loop over `evs`. -/
def runToken (A : Authorizer) (t0 : Int) (evs : List Event) : RunRes :=
  ⟨(runFrom A (initFetch A t0) evs).state,
   (runFrom A (initFetch A t0) evs).outs,
   .authBegin t0 0 :: .authEnd (t0 + A.dur 0) 0 ::
     (runFrom A (initFetch A t0) evs).acts⟩

/-- Admissibility of a complete `Token` execution. -/
def wfTok (A : Authorizer) (t0 : Int) (evs : List Event) : Bool :=
  decide (0 ≤ A.dur 0) && wf A (initFetch A t0) evs

/-- Slot invariant of the channel cell: at least one authorizer call has
completed, the slot holds exactly the outcome of the most recent one, and the
armed deadline is that call's completion instant plus
`validFor - lifeSpanSafetyMargin`. -/
def Inv (A : Authorizer) (s : TokenState) : Prop :=
  1 ≤ s.calls ∧
  s.token = (A.result (s.calls - 1)).token ∧
  s.err = (A.result (s.calls - 1)).err ∧
  s.deadline = s.lastFetchEnd + (A.result (s.calls - 1)).validFor -
    lifeSpanSafetyMargin

instance (A : Authorizer) (s : TokenState) : Decidable (Inv A s) := by
  unfold Inv
  infer_instance

/-- State of the mutex cell `MToken`: the guarded fields `token` and
`tokenErr`, the number of completed authorizer calls, the instant up to which
the write lock is held (readers are shut out until then), the armed deadline,
and whether the refresh goroutine has returned. -/
structure MState where
  token : String
  tokenErr : Option String
  calls : Nat
  busy : Int
  deadline : Int
  stopped : Bool
deriving Repr, DecidableEq

/-- What a completed `MToken.Get()` observes: instant, slot contents, and the
index of the authorizer call that produced them — `none` when the read found
the Go zero values that no authorizer call ever returned. -/
structure MOut where
  t : Int
  token : String
  err : Option String
  callIdx : Option Nat
deriving Repr, DecidableEq

/-- Events of the mutex cell: a read completing under `RLock` at `t`, one
fetch-and-store under `Lock` starting at `t` (call 0 is the initial fetch at
the top of `MToken.refreshToken`, later ones are the `<-expired` case), and
the `<-ctx.Done()` case. -/
inductive MEvent where
  | mread (t : Int)
  | mrefresh (t : Int)
  | mcancel (t : Int)
deriving Repr, DecidableEq

/-- The state of a freshly constructed `MToken` at instant `t0`: the Go zero
values `""` and `nil`, with the spawned goroutine not yet holding the lock. -/
def mzero (t0 : Int) : MState :=
  { token := "", tokenErr := none, calls := 0, busy := t0, deadline := t0,
    stopped := false }

/-- One event of the mutex cell.  A read returns the current fields — also
before the initial fetch and also after cancellation (the mutex stays
readable).  A refresh locks, calls `m.authorize()`, overwrites both fields,
unlocks and re-arms `expired`; it happens only while the loop is running. -/
def mstep (A : Authorizer) (s : MState) : MEvent → MState × Option MOut
  | .mread t =>
      (s, some ⟨t, s.token, s.tokenErr,
        if s.calls = 0 then none else some (s.calls - 1)⟩)
  | .mrefresh t =>
      if s.stopped then (s, none)
      else
        ({ token := (A.result s.calls).token,
           tokenErr := (A.result s.calls).err,
           calls := s.calls + 1, busy := t + A.dur s.calls,
           deadline := t + A.dur s.calls + (A.result s.calls).validFor -
             lifeSpanSafetyMargin,
           stopped := false }, none)
  | .mcancel _ => ({ s with stopped := true }, none)

/-- Run the mutex cell from `s` over a list of events. -/
def runM (A : Authorizer) (s : MState) : List MEvent → MState × List MOut
  | [] => (s, [])
  | e :: es =>
      ((runM A (mstep A s e).1 es).1,
       (mstep A s e).2.elim (runM A (mstep A s e).1 es).2
         (fun o => o :: (runM A (mstep A s e).1 es).2))

/-- Admissibility for the mutex cell: a read completes only while no writer
holds the lock; the initial fetch can start at any instant after the
goroutine is spawned, later refreshes only once the deadline passed.  Note
what is NOT required: nothing forces the initial fetch to precede the first
read — `MToken.Get` never waits for the refresher goroutine to have run. -/
def mevOk (A : Authorizer) (s : MState) : MEvent → Bool
  | .mread t => decide (s.busy ≤ t)
  | .mrefresh t =>
      s.stopped || (decide (s.busy ≤ t) &&
        (decide (s.calls = 0) || decide (s.deadline ≤ t)) &&
        decide (0 ≤ A.dur s.calls))
  | .mcancel t => s.stopped || decide (s.busy ≤ t)

/-- Trace admissibility for the mutex cell. -/
def wfM (A : Authorizer) (s : MState) : List MEvent → Bool
  | [] => true
  | e :: es => mevOk A s e && wfM A (mstep A s e).1 es

/-- Model of the simulated endpoint `authFunc` of the source, its two sources
of nondeterminism abstracted into parameters: `randHex k` stands for the hex
encoding of the 8 random bytes drawn on call `k`, and `failK k` for whether
the simulated transient API outage is in force when call `k` returns.  Every
call returns `validFor = tokenLifeSpan` (100ms), on failure too; on failure
the token is `""` and the error is `temporary API error`.  Call durations are
taken at the nominal `averageCallDuration` (8ms); they play no role below. -/
def authFuncModel (randHex : Nat → String) (failK : Nat → Bool) : Authorizer :=
  { result := fun k =>
      if failK k then ⟨"", 100, some "temporary API error"⟩
      else ⟨randHex k, 100, none⟩,
    dur := fun _ => 8 }

/-- The `MToken` struct as handed to the caller. -/
structure MTokenCell where
  authorize : Authorizer
  state0 : MState

/-- `NewMToken` from the source: the `authorize` field is set to the
package-level `authFunc` — the `auth` parameter is ignored.  The constructor
makes no authorizer call itself. -/
def NewMToken (randHex : Nat → String) (failK : Nat → Bool) (t0 : Int)
    (_auth : Authorizer) : MTokenCell :=
  { authorize := authFuncModel randHex failK, state0 := mzero t0 }

/-! Concrete instances used by counterexamples and witnesses. -/

/-- An authorizer that always returns `("tok-A", 100ms, nil)` instantly —
the concrete scenario of spec §8. -/
def authA : Authorizer := ⟨fun _ => ⟨"tok-A", 100, none⟩, fun _ => 0⟩

/-- An authorizer whose calls take 1000ms — an observably slow endpoint. -/
def authSlow : Authorizer := ⟨fun _ => ⟨"tok", 100, none⟩, fun _ => 1000⟩

/-- An authorizer that instantly returns a zero validity duration. -/
def authZ : Authorizer := ⟨fun _ => ⟨"z", 0, none⟩, fun _ => 0⟩

/-- An authorizer that always fails with validity 50ms. -/
def authE : Authorizer := ⟨fun _ => ⟨"", 50, some "boom"⟩, fun _ => 0⟩

/-- An authorizer distinguishable from `authFuncModel` (validity 7ms, while
`authFunc` always returns 100ms). -/
def authCustom : Authorizer := ⟨fun _ => ⟨"c", 7, none⟩, fun _ => 0⟩

/-- A loop state that has observed cancellation (three calls completed). -/
def sStop : TokenState := ⟨"x", none, 3, 0, 0, 0, true⟩

/-! ## Generic lemmas about runs of the channel cell -/

theorem runFrom_cons (A : Authorizer) (s : TokenState) (e : Event)
    (es : List Event) :
    runFrom A s (e :: es) =
      ⟨(runFrom A (step A s e).1 es).state,
       (step A s e).2.elim (runFrom A (step A s e).1 es).outs
         (fun o => o :: (runFrom A (step A s e).1 es).outs),
       actsOf A s e ++ (runFrom A (step A s e).1 es).acts⟩ := rfl

theorem inv_step (A : Authorizer) (s : TokenState) (e : Event) (h : Inv A s) :
    Inv A (step A s e).1 := by
  obtain ⟨h1, h2, h3, h4⟩ := h
  cases e with
  | read treq t =>
      cases hs : s.stopped with
      | true => simpa [step, hs] using ⟨h1, h2, h3, h4⟩
      | false => simpa [step, hs, Inv] using ⟨h1, h2, h3, h4⟩
  | timerFire t =>
      cases hs : s.stopped with
      | true => simpa [step, hs] using ⟨h1, h2, h3, h4⟩
      | false =>
          refine ⟨?_, ?_, ?_, ?_⟩ <;>
            simp [step, hs, Inv, Nat.add_sub_cancel]
  | cancel t => simpa [step, Inv] using ⟨h1, h2, h3, h4⟩

theorem calls_le_step (A : Authorizer) (s : TokenState) (e : Event) :
    s.calls ≤ (step A s e).1.calls := by
  cases e <;> cases hs : s.stopped <;> simp [step, hs]

theorem busy_le_step (A : Authorizer) (s : TokenState) (e : Event)
    (hok : evOk A s e = true) : s.busy ≤ (step A s e).1.busy := by
  cases e with
  | read treq t =>
      cases hs : s.stopped with
      | true => simp [step, hs]
      | false =>
          simp only [evOk, hs, Bool.false_or, Bool.and_eq_true,
            decide_eq_true_eq] at hok
          simpa [step, hs] using hok.2
  | timerFire t =>
      cases hs : s.stopped with
      | true => simp [step, hs]
      | false =>
          simp only [evOk, hs, Bool.false_or, Bool.and_eq_true,
            decide_eq_true_eq] at hok
          simp [step, hs]
          omega
  | cancel t => simp [step]

theorem inv_runFrom (A : Authorizer) (s : TokenState) (evs : List Event)
    (h : Inv A s) : Inv A (runFrom A s evs).state := by
  induction evs generalizing s with
  | nil => exact h
  | cons e es ih => exact ih (step A s e).1 (inv_step A s e h)

theorem outs_inv (A : Authorizer) (s : TokenState) (evs : List Event)
    (h : Inv A s) :
    ∀ o ∈ (runFrom A s evs).outs,
      o.token = (A.result o.callIdx).token ∧
      o.err = (A.result o.callIdx).err ∧
      o.expiry = o.fetchEnd + (A.result o.callIdx).validFor -
        lifeSpanSafetyMargin ∧
      s.calls ≤ o.callIdx + 1 := by
  induction evs generalizing s with
  | nil => intro o ho; simp [runFrom] at ho
  | cons e es ih =>
      intro o ho
      have hmono := calls_le_step A s e
      have hrec := ih (step A s e).1 (inv_step A s e h)
      cases e with
      | read treq t =>
          cases hs : s.stopped with
          | true =>
              rw [runFrom_cons] at ho
              simp only [step, hs, if_true] at ho hrec hmono
              have := hrec o ho
              exact ⟨this.1, this.2.1, this.2.2.1, this.2.2.2⟩
          | false =>
              rw [runFrom_cons] at ho
              simp only [step, hs, Bool.false_eq_true, if_false,
                Option.elim, List.mem_cons] at ho hrec hmono
              rcases ho with rfl | ho
              · obtain ⟨h1, h2, h3, h4⟩ := h
                refine ⟨h2, h3, ?_, ?_⟩ <;> simp <;> omega
              · have := hrec o ho
                exact ⟨this.1, this.2.1, this.2.2.1, le_trans hmono this.2.2.2⟩
      | timerFire t =>
          rw [runFrom_cons] at ho
          cases hs : s.stopped with
          | true =>
              simp only [step, hs, if_true] at ho hrec hmono
              have := hrec o ho
              exact ⟨this.1, this.2.1, this.2.2.1, this.2.2.2⟩
          | false =>
              simp only [step, hs, Bool.false_eq_true, if_false,
                Option.elim] at ho hrec hmono
              have := hrec o ho
              exact ⟨this.1, this.2.1, this.2.2.1, le_trans hmono this.2.2.2⟩
      | cancel t =>
          rw [runFrom_cons] at ho
          simp only [step, Option.elim] at ho hrec hmono
          have := hrec o ho
          exact ⟨this.1, this.2.1, this.2.2.1, le_trans hmono this.2.2.2⟩

theorem outs_time (A : Authorizer) (s : TokenState) (evs : List Event)
    (hw : wf A s evs = true) :
    ∀ o ∈ (runFrom A s evs).outs, s.busy ≤ o.t := by
  induction evs generalizing s with
  | nil => intro o ho; simp [runFrom] at ho
  | cons e es ih =>
      simp only [wf, Bool.and_eq_true] at hw
      obtain ⟨hok, htl⟩ := hw
      intro o ho
      have hb := busy_le_step A s e hok
      have hrec := ih (step A s e).1 htl
      cases e with
      | read treq t =>
          cases hs : s.stopped with
          | true =>
              rw [runFrom_cons] at ho
              simp only [step, hs, if_true] at ho hrec
              exact hrec o ho
          | false =>
              rw [runFrom_cons] at ho
              simp only [step, hs, Bool.false_eq_true, if_false,
                Option.elim, List.mem_cons] at ho hrec hb
              simp only [evOk, hs, Bool.false_or, Bool.and_eq_true,
                decide_eq_true_eq] at hok
              rcases ho with rfl | ho
              · exact hok.2
              · exact le_trans hb (hrec o ho)
      | timerFire t =>
          rw [runFrom_cons] at ho
          cases hs : s.stopped with
          | true =>
              simp only [step, hs, if_true] at ho hrec
              exact hrec o ho
          | false =>
              simp only [step, hs, Bool.false_eq_true, if_false,
                Option.elim] at ho hrec hb
              exact le_trans hb (hrec o ho)
      | cancel t =>
          rw [runFrom_cons] at ho
          simp only [step, Option.elim] at ho hrec hb
          exact le_trans hb (hrec o ho)

theorem outs_fresh (A : Authorizer) (s : TokenState) (evs : List Event)
    (hp : prompt A s evs = true) :
    ∀ o ∈ (runFrom A s evs).outs, o.t ≤ o.expiry := by
  induction evs generalizing s with
  | nil => intro o ho; simp [runFrom] at ho
  | cons e es ih =>
      simp only [prompt, Bool.and_eq_true] at hp
      obtain ⟨hok, htl⟩ := hp
      intro o ho
      have hrec := ih (step A s e).1 htl
      cases e with
      | read treq t =>
          cases hs : s.stopped with
          | true =>
              rw [runFrom_cons] at ho
              simp only [step, hs, if_true] at ho hrec
              exact hrec o ho
          | false =>
              rw [runFrom_cons] at ho
              simp only [step, hs, Bool.false_eq_true, if_false,
                Option.elim, List.mem_cons] at ho hrec
              simp only [promptOk, hs, Bool.false_or,
                decide_eq_true_eq] at hok
              rcases ho with rfl | ho
              · exact hok
              · exact hrec o ho
      | timerFire t =>
          rw [runFrom_cons] at ho
          cases hs : s.stopped with
          | true =>
              simp only [step, hs, if_true] at ho hrec
              exact hrec o ho
          | false =>
              simp only [step, hs, Bool.false_eq_true, if_false,
                Option.elim] at ho hrec
              exact hrec o ho
      | cancel t =>
          rw [runFrom_cons] at ho
          simp only [step, Option.elim] at ho hrec
          exact hrec o ho

theorem stopped_absorb (A : Authorizer) (s : TokenState) (evs : List Event)
    (h : s.stopped = true) : runFrom A s evs = ⟨s, [], []⟩ := by
  induction evs generalizing s with
  | nil => rfl
  | cons e es ih =>
      have h1 : (step A s e).1 = s ∧ (step A s e).2 = none := by
        cases e with
        | read treq t => simp [step, h]
        | timerFire t => simp [step, h]
        | cancel t =>
            refine ⟨?_, rfl⟩
            cases s
            simp_all [step]
      have h2 : actsOf A s e = [] := by
        cases e <;> simp [actsOf, h]
      rw [runFrom_cons, h1.1, h1.2, h2, ih s h]
      rfl

theorem stopped_src (A : Authorizer) (s : TokenState) (evs : List Event)
    (h : (runFrom A s evs).state.stopped = true) :
    s.stopped = true ∨ ∃ t, Event.cancel t ∈ evs := by
  induction evs generalizing s with
  | nil => exact Or.inl h
  | cons e es ih =>
      have h' : (runFrom A (step A s e).1 es).state.stopped = true := by
        rw [runFrom_cons] at h; exact h
      rcases ih (step A s e).1 h' with hst | ⟨t, ht⟩
      · cases e with
        | read treq t =>
            cases hs : s.stopped with
            | true => exact Or.inl rfl
            | false => simp [step, hs] at hst
        | timerFire t =>
            cases hs : s.stopped with
            | true => exact Or.inl rfl
            | false => simp [step, hs] at hst
        | cancel t => exact Or.inr ⟨t, List.mem_cons_self _ _⟩
      · exact Or.inr ⟨t, List.mem_cons_of_mem _ ht⟩

/-- Bracketing structure of the observable actions: a run is a sequence of
blocks, each either a handoff or a begin/end pair of one authorizer call. -/
inductive Balanced : List Action → Prop
  | nil : Balanced []
  | serve (t : Int) (l : List Action) : Balanced l →
      Balanced (Action.serve t :: l)
  | call (t1 : Int) (k1 : Nat) (t2 : Int) (k2 : Nat) (l : List Action) :
      Balanced l → Balanced (Action.authBegin t1 k1 :: Action.authEnd t2 k2 :: l)

theorem balanced_runFrom (A : Authorizer) (s : TokenState)
    (evs : List Event) : Balanced (runFrom A s evs).acts := by
  induction evs generalizing s with
  | nil => exact Balanced.nil
  | cons e es ih =>
      rw [runFrom_cons]
      cases e with
      | read treq t =>
          cases hs : s.stopped with
          | true => simpa [actsOf, hs] using ih (step A s (.read treq t)).1
          | false =>
              simpa [actsOf, hs] using
                Balanced.serve t _ (ih (step A s (.read treq t)).1)
      | timerFire t =>
          cases hs : s.stopped with
          | true => simpa [actsOf, hs] using ih (step A s (.timerFire t)).1
          | false =>
              simpa [actsOf, hs] using
                Balanced.call t s.calls (t + A.dur s.calls) s.calls _
                  (ih (step A s (.timerFire t)).1)
      | cancel t => simpa [actsOf] using ih (step A s (.cancel t)).1

/-- Contribution of one action to the number of in-flight authorizer calls. -/
def delta : Action → Int
  | .authBegin _ _ => 1
  | .authEnd _ _ => -1
  | _ => 0

/-- Number of authorizer calls in flight after a list of actions. -/
def inflight : List Action → Int
  | [] => 0
  | a :: l => delta a + inflight l

theorem inflight_take_of_balanced {l : List Action} (h : Balanced l) :
    ∀ n : Nat, 0 ≤ inflight (l.take n) ∧ inflight (l.take n) ≤ 1 := by
  induction h with
  | nil => intro n; simp [inflight]
  | serve t l hl ih =>
      intro n
      match n with
      | 0 => simp [inflight]
      | Nat.succ m =>
          have := ih m
          simp only [List.take_succ_cons, inflight, delta]
          omega
  | call t1 k1 t2 k2 l hl ih =>
      intro n
      match n with
      | 0 => simp [inflight]
      | 1 => simp [inflight, delta]
      | Nat.succ (Nat.succ m) =>
          have := ih m
          simp only [List.take_succ_cons, inflight, delta]
          omega

/-- An event list consisting only of reader handoffs. -/
def readsOnly : List Event → Bool
  | [] => true
  | .read _ _ :: es => readsOnly es
  | _ => false

theorem readsOnly_outs (A : Authorizer) (s : TokenState) (evs : List Event)
    (h : readsOnly evs = true) :
    (runFrom A s evs).state.token = s.token ∧
    (runFrom A s evs).state.err = s.err ∧
    ∀ o ∈ (runFrom A s evs).outs, o.err = s.err := by
  induction evs generalizing s with
  | nil =>
      refine ⟨rfl, rfl, ?_⟩
      intro o ho; simp [runFrom] at ho
  | cons e es ih =>
      cases e with
      | read treq t =>
          have h' : readsOnly es = true := h
          cases hs : s.stopped with
          | true =>
              have hstep : step A s (Event.read treq t) = (s, none) := by
                simp [step, hs]
              have hrec := ih (s := s) h'
              rw [runFrom_cons, hstep]
              exact hrec
          | false =>
              have hstep : step A s (Event.read treq t) =
                  ({ s with busy := t },
                   some ⟨t, s.token, s.err, s.calls - 1, s.lastFetchEnd,
                     s.deadline⟩) := by
                simp [step, hs]
              have hrec := ih (s := { s with busy := t }) h'
              rw [runFrom_cons, hstep]
              refine ⟨hrec.1, hrec.2.1, ?_⟩
              intro o ho
              rcases List.mem_cons.mp ho with rfl | ho
              · rfl
              · exact hrec.2.2 o ho
      | timerFire t => simp [readsOnly] at h
      | cancel t => simp [readsOnly] at h

theorem inv_initFetch (A : Authorizer) (t0 : Int) :
    Inv A (initFetch A t0) := by
  refine ⟨le_refl 1, rfl, rfl, rfl⟩

/-! ## The claims -/

/-- Claim C2: single-flight — at most one authorizer call is in flight at
every instant of every execution of the cell.  Along the observable action
trace of a full run of `Token.refreshToken` (the loop is the only caller of
`a.authorize`, and it blocks on each call), every prefix has between 0 and 1
calls in flight. -/
theorem c2_single_flight (A : Authorizer) (t0 : Int) (evs : List Event)
    (n : Nat) :
    0 ≤ inflight (((runToken A t0 evs).acts).take n) ∧
    inflight (((runToken A t0 evs).acts).take n) ≤ 1 := by
  have hb : Balanced (runToken A t0 evs).acts :=
    Balanced.call t0 0 (t0 + A.dur 0) 0 _
      (balanced_runFrom A (initFetch A t0) evs)
  exact inflight_take_of_balanced hb n

/-- Claim C3 fails for the mutex cell: `MToken.Get` never waits for the
refresher goroutine, so a read completing before the goroutine's first
`Lock` observes the Go zero values — an empty credential with nil error that
no authorizer call returned.  The one-read trace at instant 5 from a cell
constructed at instant 0 is admissible, and its completed read carries the
zero slot with no producing call (`callIdx = none`). -/
theorem c3_bug_eval :
    wfM (authFuncModel (fun _ => "x") (fun _ => false)) (mzero 0)
      [MEvent.mread 5] = true ∧
    (runM (authFuncModel (fun _ => "x") (fun _ => false)) (mzero 0)
      [MEvent.mread 5]).2 = [⟨5, "", none, none⟩] := by
  exact ⟨by decide, by decide⟩

/-- Claim C7 on the code: `NewToken` stores the supplied authorization
function and makes no authorizer call at construction — but `NewMToken`
ignores its `auth` parameter and stores the package-level `authFunc` instead,
so a mutex cell constructed with any authorizer distinguishable from
`authFunc` (here `authCustom`, whose calls return `validFor = 7` while
`authFunc` always returns 100) never calls the supplied function. -/
theorem c7_bug_eval :
    (NewToken 0 authCustom).authorize = authCustom ∧
    (NewToken 0 authCustom).state0.calls = 0 ∧
    (NewMToken (fun _ => "x") (fun _ => false) 0 authCustom).state0.calls =
      0 ∧
    (NewMToken (fun _ => "x") (fun _ => false) 0 authCustom).authorize ≠
      authCustom := by
  refine ⟨rfl, rfl, rfl, ?_⟩
  intro hcontra
  have h2 : (100 : Int) = 7 := by
    simpa [NewMToken, authFuncModel, authCustom] using
      congrArg (fun a => (a.result 0).validFor) hcontra
  exact absurd h2 (by decide)

/-- Claim C1 exactly as stated (spec §3 invariant, §8 *Freshness*): in every
admissible execution, every completed read returns a credential whose
computed expiry — producing-fetch completion time plus `validFor` minus
`lifeSpanSafetyMargin`, recorded as the `expiry` of the read — is not before
the read's own timestamp. -/
def FreshnessStated : Prop :=
  ∀ (A : Authorizer) (t0 : Int) (evs : List Event),
    wfTok A t0 evs = true →
    ∀ o ∈ (runToken A t0 evs).outs, o.t ≤ o.expiry

/-- Claim C1, counterexample: Go's `select` may service a reader even when
the expiry timer case is already ready.  With an authorizer returning
`("tok-A", 100ms, nil)` instantly and the loop started at 0, the timer is
armed for instant 90; the admissible trace that hands off to a reader at
instant 95 — before the loop takes the timer case — returns the call-0
credential, whose computed expiry 90 is before the read's timestamp 95. -/
theorem c1_cex : ¬ FreshnessStated := by
  intro hclaim
  have h := hclaim authA 0 [Event.read 95 95] (by decide)
    (ReadOut.mk 95 "tok-A" none 0 0 90) (by decide)
  exact absurd h (by decide)

/-- Claim C1, amended: freshness holds for every prompt schedule — one in
which the loop takes a ready timer case before servicing any reader at or
after the armed deadline.  Then every completed read returns the credential
of the latest authorizer call, its computed expiry (that call's completion
time + its `validFor` − `lifeSpanSafetyMargin`) is not before the read's
timestamp, and its contents are exactly what that call returned.  (Without
promptness, `select` may favour a ready reader over the ready timer; see the
counterexample.) -/
theorem c1_amended (A : Authorizer) (t0 : Int) (evs : List Event)
    (_hw : wfTok A t0 evs = true)
    (hp : prompt A (initFetch A t0) evs = true) :
    ∀ o ∈ (runToken A t0 evs).outs,
      o.t ≤ o.expiry ∧
      o.expiry = o.fetchEnd + (A.result o.callIdx).validFor -
        lifeSpanSafetyMargin ∧
      o.token = (A.result o.callIdx).token ∧
      o.err = (A.result o.callIdx).err := by
  intro o ho
  have ho' : o ∈ (runFrom A (initFetch A t0) evs).outs := ho
  have h1 := outs_fresh A (initFetch A t0) evs hp o ho'
  have h2 := outs_inv A (initFetch A t0) evs (inv_initFetch A t0) o ho'
  exact ⟨h1, h2.2.2.1, h2.1, h2.2.1⟩

theorem c1_witness :
    (ReadOut.mk 5 "tok-A" none 0 0 90).t ≤
      (ReadOut.mk 5 "tok-A" none 0 0 90).expiry ∧
    (ReadOut.mk 5 "tok-A" none 0 0 90).expiry =
      (ReadOut.mk 5 "tok-A" none 0 0 90).fetchEnd +
        (authA.result (ReadOut.mk 5 "tok-A" none 0 0 90).callIdx).validFor -
        lifeSpanSafetyMargin ∧
    (ReadOut.mk 5 "tok-A" none 0 0 90).token =
      (authA.result (ReadOut.mk 5 "tok-A" none 0 0 90).callIdx).token ∧
    (ReadOut.mk 5 "tok-A" none 0 0 90).err =
      (authA.result (ReadOut.mk 5 "tok-A" none 0 0 90).callIdx).err :=
  c1_amended authA 0 [Event.read 0 5] (by decide) (by decide)
    (ReadOut.mk 5 "tok-A" none 0 0 90) (by decide)

/-- Claim C4 as stated, at a concrete input: with an authorizer whose calls
take 1000ms (`authSlow`) and the loop started at 0 (initial fetch completes
at 1000, timer armed for 1090), the refresh taken at 1090 runs during
[1090, 2090).  The claim says a `Get()` issued at 1100 against the
previously-serving cell completes without waiting for that authorizer call,
i.e. at some admissible instant before 2090. -/
def NonBlockingStated : Prop :=
  ∃ t : Int,
    wfTok authSlow 0 [Event.timerFire 1090, Event.read 1100 t] = true ∧
    t < 2090

/-- Claim C4, counterexample: there is no such admissible completion instant.
While the loop is inside `a.authorize()` nothing can receive from the
`accessToken` channel (and in the mutex variant the call sits inside the
write lock — the source comment even says readers have to wait for the new
token), so the read issued at 1100 can only complete at or after 2090: read
latency is NOT independent of authorizer latency. -/
theorem c4_cex : ¬ NonBlockingStated := by
  rintro ⟨t, hwfp, hlt⟩
  simp only [wfTok, wf, evOk, step, initFetch, authSlow, lifeSpanSafetyMargin,
    Bool.and_eq_true, decide_eq_true_eq] at hwfp
  norm_num at hwfp
  omega

/-- Claim C4, amended: reads are never serviced during an authorizer call —
the loop is occupied for the call's whole duration, so in any admissible
continuation after a refresh starting at `b`, every completed read happens at
or after the call's completion `b + dur`.  A `Get()` issued while a refresh
is in flight therefore waits for that call; only reads falling in a
refresh-free interval are served from the already-fetched slot without
waiting. -/
theorem c4_amended (A : Authorizer) (s : TokenState) (b : Int)
    (rest : List Event) (hs : s.stopped = false)
    (hw : wf A s (Event.timerFire b :: rest) = true) :
    ∀ o ∈ (runFrom A s (Event.timerFire b :: rest)).outs,
      b + A.dur s.calls ≤ o.t := by
  simp only [wf, Bool.and_eq_true] at hw
  obtain ⟨hok, htl⟩ := hw
  intro o ho
  rw [runFrom_cons] at ho
  have hstep2 : (step A s (Event.timerFire b)).2 = none := by
    simp [step, hs]
  rw [hstep2] at ho
  simp only [Option.elim] at ho
  have hbusy : (step A s (Event.timerFire b)).1.busy = b + A.dur s.calls := by
    simp [step, hs]
  have h := outs_time A (step A s (Event.timerFire b)).1 rest htl o ho
  rw [hbusy] at h
  exact h

theorem c4_witness :
    (1090 : Int) + authSlow.dur (initFetch authSlow 0).calls ≤
      (ReadOut.mk 2090 "tok" none 1 2090 2180).t :=
  c4_amended authSlow (initFetch authSlow 0) 1090 [Event.read 1100 2090]
    (by decide) (by decide) (ReadOut.mk 2090 "tok" none 1 2090 2180)
    (by decide)

/-- Claim C5: on a cycle where the authorizer fails, the loop stores the
returned error in the slot (the token too is overwritten by whatever the
authorizer returned), still arms the retry timer from the returned
`validFor` (completion + validFor − margin), keeps running, and every reader
serviced before the next refresh outcome observes exactly that error. -/
theorem c5_error_cycle (A : Authorizer) (s : TokenState) (t : Int)
    (e : String) (hs : s.stopped = false)
    (he : (A.result s.calls).err = some e) (rest : List Event)
    (hro : readsOnly rest = true) :
    (step A s (Event.timerFire t)).1.err = some e ∧
    (step A s (Event.timerFire t)).1.stopped = false ∧
    (step A s (Event.timerFire t)).1.deadline =
      t + A.dur s.calls + (A.result s.calls).validFor -
        lifeSpanSafetyMargin ∧
    ∀ o ∈ (runFrom A (step A s (Event.timerFire t)).1 rest).outs,
      o.err = some e := by
  have hstep : (step A s (Event.timerFire t)).1.err = some e := by
    simp [step, hs, he]
  refine ⟨hstep, by simp [step, hs], by simp [step, hs], ?_⟩
  intro o ho
  have h := (readsOnly_outs A (step A s (Event.timerFire t)).1 rest hro).2.2
    o ho
  rw [h, hstep]

theorem c5_witness :
    (step authE (initFetch authE 0) (Event.timerFire 40)).1.err =
      some "boom" ∧
    (ReadOut.mk 41 "" (some "boom") 1 40 80).err = some "boom" :=
  ⟨(c5_error_cycle authE (initFetch authE 0) 40 "boom" (by decide)
      (by decide) [Event.read 41 41] (by decide)).1,
   (c5_error_cycle authE (initFetch authE 0) 40 "boom" (by decide)
      (by decide) [Event.read 41 41] (by decide)).2.2.2
     (ReadOut.mk 41 "" (some "boom") 1 40 80) (by decide)⟩

/-- Claim C6: shutdown — once the loop has observed cancellation it has
exited: from a stopped state no event changes the authorizer call count, the
loop stays stopped, and no further action (in particular no authorizer call)
is ever observed; conversely, the loop only ever reaches the stopped state
because a cancellation event occurred — never from a timer event or an
authorizer failure. -/
theorem c6_shutdown (A : Authorizer) (s : TokenState) (evs : List Event) :
    (s.stopped = true →
      (runFrom A s evs).state.calls = s.calls ∧
      (runFrom A s evs).state.stopped = true ∧
      (runFrom A s evs).acts = []) ∧
    ((runFrom A s evs).state.stopped = true →
      s.stopped = true ∨ ∃ t, Event.cancel t ∈ evs) := by
  constructor
  · intro h
    rw [stopped_absorb A s evs h]
    exact ⟨rfl, h, rfl⟩
  · exact stopped_src A s evs

theorem c6_witness :
    ((runFrom authA sStop [Event.timerFire 5]).state.calls = sStop.calls ∧
     (runFrom authA sStop [Event.timerFire 5]).state.stopped = true ∧
     (runFrom authA sStop [Event.timerFire 5]).acts = []) ∧
    (sStop.stopped = true ∨ ∃ t, Event.cancel t ∈ [Event.timerFire 5]) :=
  ⟨(c6_shutdown authA sStop [Event.timerFire 5]).1 rfl,
   (c6_shutdown authA sStop [Event.timerFire 5]).2 (by decide)⟩

/-- The instants at which authorizer calls start, along an action trace. -/
def beginTimes : List Action → List Int
  | [] => []
  | Action.authBegin t _ :: l => t :: beginTimes l
  | _ :: l => beginTimes l

/-- Adjacent elements are separated by at least one quantum (1ms). -/
def gapped : List Int → Bool
  | a :: b :: l => decide (a + 1 ≤ b) && gapped (b :: l)
  | _ => true

/-- Claim C8 as stated: the timer duration is clamped to zero when
`validFor ≤ safetyMargin` — i.e. the armed deadline is fetch completion plus
`max 0 (validFor − margin)` — and a minimum inter-fetch floor of at least
one scheduling quantum (1ms in this model) separates consecutive fetch
starts in every admissible execution. -/
def ClampFloorStated : Prop :=
  (∀ (A : Authorizer) (s : TokenState) (t : Int), s.stopped = false →
    (step A s (Event.timerFire t)).1.deadline =
      t + A.dur s.calls + max 0 ((A.result s.calls).validFor -
        lifeSpanSafetyMargin)) ∧
  (∀ (A : Authorizer) (t0 : Int) (evs : List Event),
    wfTok A t0 evs = true →
    gapped (beginTimes (runToken A t0 evs).acts) = true)

/-- Claim C8, counterexample: the code has no inter-fetch floor — with an
authorizer returning `validFor = 0` instantly (`authZ`), the trace that takes
the timer case twice at instant 0 is admissible, and then three authorizer
calls start at the same instant 0 with zero spacing (the armed deadline is
even negative, `-10`, passed unclamped to `time.After`). -/
theorem c8_cex : ¬ ClampFloorStated := by
  rintro ⟨hclamp, hfloor⟩
  have h := hfloor authZ 0 [Event.timerFire 0, Event.timerFire 0] (by decide)
  exact absurd h (by decide)

/-- Claim C8, amended: `Token.refreshToken` arms the timer at exactly
`validFor − lifeSpanSafetyMargin` from fetch completion with no clamping and
no floor: for `validFor ≤ safetyMargin` the armed deadline lies at or before
fetch completion (a non-positive `time.After` duration, which fires
immediately), so the loop may legally refetch back-to-back with zero spacing
between consecutive authorizer calls, as the admissible `authZ` trace with
three fetch starts at instant 0 shows. -/
theorem c8_amended (A : Authorizer) (s : TokenState) (t : Int)
    (hs : s.stopped = false) :
    (step A s (Event.timerFire t)).1.deadline =
      t + A.dur s.calls + (A.result s.calls).validFor -
        lifeSpanSafetyMargin ∧
    wfTok authZ 0 [Event.timerFire 0, Event.timerFire 0] = true ∧
    beginTimes (runToken authZ 0 [Event.timerFire 0,
      Event.timerFire 0]).acts = [0, 0, 0] := by
  refine ⟨?_, by decide, by decide⟩
  simp [step, hs]

theorem c8_witness :
    (step authZ (initFetch authZ 0) (Event.timerFire 5)).1.deadline =
      5 + authZ.dur (initFetch authZ 0).calls +
        (authZ.result (initFetch authZ 0).calls).validFor -
        lifeSpanSafetyMargin ∧
    wfTok authZ 0 [Event.timerFire 0, Event.timerFire 0] = true ∧
    beginTimes (runToken authZ 0 [Event.timerFire 0,
      Event.timerFire 0]).acts = [0, 0, 0] :=
  c8_amended authZ (initFetch authZ 0) 5 (by decide)

/-- Claim C9: causal ordering — from any state satisfying the slot invariant
(in particular the state right after a completed refresh, whose `calls` field
is that refresh's 1-based index), every later completed read observes
contents produced by an authorizer call of index at least `calls − 1`, and
exactly that call's token and error: never the pre-refresh slot. -/
theorem c9_causal (A : Authorizer) (s : TokenState) (evs : List Event)
    (h : Inv A s) :
    ∀ o ∈ (runFrom A s evs).outs,
      s.calls ≤ o.callIdx + 1 ∧
      o.token = (A.result o.callIdx).token ∧
      o.err = (A.result o.callIdx).err := by
  intro o ho
  have h2 := outs_inv A s evs h o ho
  exact ⟨h2.2.2.2, h2.1, h2.2.1⟩

theorem c9_witness :
    (step authA (initFetch authA 0) (Event.timerFire 90)).1.calls ≤
      (ReadOut.mk 100 "tok-A" none 1 90 180).callIdx + 1 ∧
    (ReadOut.mk 100 "tok-A" none 1 90 180).token =
      (authA.result (ReadOut.mk 100 "tok-A" none 1 90 180).callIdx).token ∧
    (ReadOut.mk 100 "tok-A" none 1 90 180).err =
      (authA.result (ReadOut.mk 100 "tok-A" none 1 90 180).callIdx).err :=
  c9_causal authA (step authA (initFetch authA 0) (Event.timerFire 90)).1
    [Event.read 100 100] (by decide)
    (ReadOut.mk 100 "tok-A" none 1 90 180) (by decide)

/-- Claim C10: after the loop has exited due to cancellation, a reader is
never handed a value — from a stopped state no continuation produces any
completed read, so a `Get()` that begins after shutdown blocks forever; and
no "stopped" error value exists anywhere: every error a completed read ever
observes is literally the `err` some authorizer call returned, so
post-cancellation readers cannot detect shutdown. -/
theorem c10_blocked (A : Authorizer) (s : TokenState) (evs : List Event) :
    (s.stopped = true → (runFrom A s evs).outs = []) ∧
    (Inv A s → ∀ o ∈ (runFrom A s evs).outs,
      o.err = (A.result o.callIdx).err) := by
  constructor
  · intro h
    rw [stopped_absorb A s evs h]
  · intro h o ho
    exact (outs_inv A s evs h o ho).2.1

theorem c10_witness :
    (runFrom authA sStop [Event.read 0 5]).outs = [] ∧
    (ReadOut.mk 5 "tok-A" none 0 0 90).err =
      (authA.result (ReadOut.mk 5 "tok-A" none 0 0 90).callIdx).err :=
  ⟨(c10_blocked authA sStop [Event.read 0 5]).1 rfl,
   (c10_blocked authA (initFetch authA 0) [Event.read 0 5]).2 (by decide)
     (ReadOut.mk 5 "tok-A" none 0 0 90) (by decide)⟩

end Refresh
